import Mathlib

/-!
Verification of the reconstruction pipeline of `reprocess_data.py`
(crossfit_programming repository).

Strings are modelled as `List Char`.  Python's `str.lower`, `str.strip`
and the concrete regular expressions used by the source are embedded as
executable character-level functions.  Regular-expression search is
modelled by trying a match at every start position from the left
(Python `re.search` leftmost semantics); inside one pattern the
quantifiers `\s+`, `\d+`, `\w+` are separated by disjoint character
classes in every pattern of the source, so maximal munch is exact; the
single negative lookahead (pattern 4 of `detect_cycle_info`) is given
the engine's longest-first backtracking on the digit group.
-/

namespace Crossfit

/-- ASCII lowercase conversion, as applied by Python `str.lower` on the
titles and contents handled here (which are ASCII). -/
def lowerChar (c : Char) : Char :=
  if 'A' ≤ c ∧ c ≤ 'Z' then Char.ofNat (c.toNat + 32) else c

/-- Lowercase a whole string. -/
def lowerStr (cs : List Char) : List Char := cs.map lowerChar

/-- Python `\s` class (ASCII part). -/
def isSpaceC (c : Char) : Bool :=
  c = ' ' || c = '\t' || c = '\n' || Char.ofNat 13 = c || Char.ofNat 11 = c || Char.ofNat 12 = c

/-- Python `\d` class (ASCII part). -/
def isDigitC (c : Char) : Bool := '0' ≤ c && c ≤ '9'

/-- Python `\w` class (ASCII part). -/
def isWordC (c : Char) : Bool :=
  ('a' ≤ c && c ≤ 'z') || ('A' ≤ c && c ≤ 'Z') || isDigitC c || c = '_'

/-- Python `str.strip`: remove whitespace from both ends. -/
def pyStrip (cs : List Char) : List Char :=
  List.rdropWhile isSpaceC (List.dropWhile isSpaceC cs)

/-- Numeric value of a digit string, as computed by Python `int`. -/
def digitsVal (cs : List Char) : Nat :=
  cs.foldl (fun a c => a * 10 + (c.toNat - '0'.toNat)) 0

/-- Consume a literal, as a regex literal does. -/
def dropLit (lit cs : List Char) : Option (List Char) :=
  if lit.isPrefixOf cs then some (cs.drop lit.length) else none

/-- Consume `\s+` (at least one whitespace character, maximal munch). -/
def dropWs1 (cs : List Char) : Option (List Char) :=
  if (cs.takeWhile isSpaceC) = [] then none else some (cs.dropWhile isSpaceC)

/-- Consume `(\d+)` (maximal munch) and return its numeric value. -/
def takeDigits1 (cs : List Char) : Option (Nat × List Char) :=
  if (cs.takeWhile isDigitC) = [] then none
  else some (digitsVal (cs.takeWhile isDigitC), cs.dropWhile isDigitC)

/-- Consume `\w+` (maximal munch). -/
def dropWord1 (cs : List Char) : Option (List Char) :=
  if (cs.takeWhile isWordC) = [] then none else some (cs.dropWhile isWordC)

/-- Try a matcher at every start position, leftmost first — the
semantics of Python `re.search`. -/
def searchAux {α : Type} (f : List Char → Option α) : List Char → Option α
  | [] => f []
  | c :: cs =>
    match f (c :: cs) with
    | some r => some r
    | none => searchAux f cs

/-- Match `week\s+(\d+)\s+of\s+(\d+)` at the current position
(pattern 1 of `detect_cycle_info`, line 97). -/
def p1At (cs : List Char) : Option (Nat × Option Nat) := do
  let cs ← dropLit "week".toList cs
  let cs ← dropWs1 cs
  let (n, cs) ← takeDigits1 cs
  let cs ← dropWs1 cs
  let cs ← dropLit "of".toList cs
  let cs ← dropWs1 cs
  let (m, _) ← takeDigits1 cs
  some (n, some m)

/-- Match `week\s+(\d+)\/(\d+)` at the current position
(pattern 2 of `detect_cycle_info`, line 98). -/
def p2At (cs : List Char) : Option (Nat × Option Nat) := do
  let cs ← dropLit "week".toList cs
  let cs ← dropWs1 cs
  let (n, cs) ← takeDigits1 cs
  let cs ← dropLit "/".toList cs
  let (m, _) ← takeDigits1 cs
  some (n, some m)

/-- Match `(\d+)\.1\)` at the current position
(pattern 3 of `detect_cycle_info`, line 99). -/
def p3At (cs : List Char) : Option (Nat × Option Nat) := do
  let (n, cs) ← takeDigits1 cs
  let _ ← dropLit ".1)".toList cs
  some (n, none)

/-- The lookahead body `\s+(?:of|/)` of pattern 4. -/
def p4Lookahead (cs : List Char) : Bool :=
  match dropWs1 cs with
  | none => false
  | some cs2 => "of".toList.isPrefixOf cs2 || "/".toList.isPrefixOf cs2

/-- Backtracking on the digit group of pattern 4: `revPre` holds the
digits currently consumed, in reverse; the engine tries the longest
group first and, while the negative lookahead fails, gives one digit
back to the input. -/
def p4TryRev : List Char → List Char → Option Nat
  | [], _ => none
  | c :: revPre, rest =>
    if p4Lookahead rest = false then some (digitsVal (c :: revPre).reverse)
    else p4TryRev revPre (c :: rest)

/-- Match `week\s+(\d+)(?!\s+(?:of|/))` at the current position
(pattern 4 of `detect_cycle_info`, line 100). -/
def p4At (cs : List Char) : Option (Nat × Option Nat) := do
  let cs ← dropLit "week".toList cs
  let cs ← dropWs1 cs
  if (cs.takeWhile isDigitC) = [] then none
  else
    match p4TryRev (cs.takeWhile isDigitC).reverse (cs.dropWhile isDigitC) with
    | some n => some (n, none)
    | none => none

/-- The fixed priority-ordered pattern list of `detect_cycle_info`
(lines 96-101), each entry already wrapped in `re.search`. -/
def weekPatterns : List (List Char → Option (Nat × Option Nat)) :=
  [p1At, p2At, p3At, p4At]

/-- Specification-level view of the pattern loop: search pattern 1,
else pattern 2, else pattern 3, else pattern 4 — first match wins. -/
def firstWeekMatch (cs : List Char) : Option (Nat × Option Nat) :=
  match searchAux p1At cs with
  | some r => some r
  | none =>
    match searchAux p2At cs with
    | some r => some r
    | none =>
      match searchAux p3At cs with
      | some r => some r
      | none => searchAux p4At cs

/-! ## The validator (lines 45-65 of `reprocess_data.py`) -/

/-- The literal placeholder list of line 47. -/
def placeholderTitles : List (List Char) :=
  ["No title".toList, "Warm-up".toList, "".toList]

/-- The seven weekday codes, in the order of line 60. -/
def dayCodes : List (List Char) :=
  ["mon", "tue", "wed", "thu", "fri", "sat", "sun"].map String.toList

/-- Consume the `(mon|tue|wed|thu|fri|sat|sun)` alternation. -/
def dropDay (cs : List Char) : Option (List Char) :=
  match dayCodes.find? (fun d => d.isPrefixOf cs) with
  | some d => some (cs.drop d.length)
  | none => none

/-- Consume an optional comma (`,?`, greedy; the following token is
`\s+`, so consuming is forced whenever a comma is present). -/
def dropComma (cs : List Char) : List Char :=
  match cs with
  | ',' :: rest => rest
  | _ => cs

/-- Consume `\d{4}` (exactly four digits). -/
def fourDigits (cs : List Char) : Option (List Char) :=
  match cs with
  | a :: b :: c :: d :: rest =>
    if isDigitC a && isDigitC b && isDigitC c && isDigitC d then some rest else none
  | _ => none

/-- Match the part of the date pattern of line 52 that follows the
leading `\b`, at the current position:
`(mon|tue|wed|thu|fri|sat|sun),?\s+\w+\s+\d+,\s+\d{4}\b`. -/
def dateAnchorTail (cs : List Char) : Bool :=
  match (do
    let cs ← dropDay cs
    let cs ← dropWs1 (dropComma cs)
    let cs ← dropWord1 cs
    let cs ← dropWs1 cs
    let (_, cs) ← takeDigits1 cs
    let cs ← dropLit ",".toList cs
    let cs ← dropWs1 cs
    fourDigits cs : Option (List Char)) with
  | some rest =>
    match rest with
    | [] => true
    | c :: _ => !isWordC c
  | none => false

/-- Match the full date pattern of line 52 at the current position;
`prev` is the character just before the position (for the leading
`\b`; the day codes start with a word character, so the boundary holds
exactly when `prev` is absent or not a word character). -/
def dateAnchorAt (prev : Option Char) (cs : List Char) : Bool :=
  (match prev with
   | none => true
   | some c => !isWordC c) && dateAnchorTail cs

/-- Scan every position left to right, tracking the previous character. -/
def dateAnchorSearchAux : Option Char → List Char → Bool
  | prev, [] => dateAnchorAt prev []
  | prev, c :: cs => dateAnchorAt prev (c :: cs) || dateAnchorSearchAux (some c) cs

/-- Python `re.search` of the date pattern of line 52. -/
def containsDateAnchor (cs : List Char) : Bool :=
  dateAnchorSearchAux none cs

/-- Lines 45-56, `is_valid_workout_title`: reject empty titles and
(stripped) placeholder titles, then require the date pattern somewhere
in the lowercased title. -/
def isValidWorkoutTitle (title : List Char) : Bool :=
  if title = [] ∨ pyStrip title ∈ placeholderTitles then false
  else containsDateAnchor (lowerStr title)

/-- Lines 58-65, `get_day_from_title`: the first weekday code the
lowercased title starts with. -/
def getDayFromTitle (title : List Char) : Option (List Char) :=
  dayCodes.find? (fun d => d.isPrefixOf (lowerStr title))

/-! ## The data model (section 3 of the design) -/

/-- One day's session (the dict of lines 82-88; the `html` field is a
copy of the raw markup and is never consulted by the pipeline, so it is
omitted). -/
structure Workout where
  title : List Char
  content : List Char
  source_page : Nat
  day : Option (List Char)
  cycle_id : Option Nat
  week_number : Option Nat
  deriving DecidableEq, Repr

/-- Lines 67-90, `parse_workout_from_html`.  The BeautifulSoup
extraction is abstracted away: the function receives the extracted
heading text (`title_elem.get_text()`, or `"No title"` when no heading
was found) and the page text (`soup.get_text()`) directly, and applies
the same `.strip()` calls as the source.  A candidate rejected by the
validator produces `none` (the source prints and returns `None`; it
never raises). -/
def parseWorkoutFromHtml (headingText contentText : List Char) (sourcePage : Nat) :
    Option Workout :=
  let title := pyStrip headingText
  if isValidWorkoutTitle title then
    some { title := title, content := pyStrip contentText, source_page := sourcePage,
           day := getDayFromTitle title, cycle_id := none, week_number := none }
  else none

/-- A derived week grouping (the dict of line 183). -/
structure Week where
  week_number : Nat
  workouts : List Nat
  deriving DecidableEq, Repr

/-- One inferred training cycle (the dict of lines 116-122; the
`weeks` key is absent until `organize_workouts_by_weeks` runs, hence
the `Option`). -/
structure Cycle where
  cycle_id : Nat
  total_weeks : Option Nat
  workouts : List Nat
  start_date : List Char
  name : List Char
  weeks : Option (List Week)
  deriving DecidableEq, Repr

/-- The mutable state of `DataReprocessor` (lines 28-33).  Python's
`self.current_cycle` holds a reference to a dict that also sits inside
`self.cycles`; the aliasing is modelled by storing the index of the
open cycle in the cycle list. -/
structure ReprocessorState where
  workouts : List Workout
  cycles : List Cycle
  current_cycle : Option Nat
  current_week : Option Nat
  deriving DecidableEq, Repr

/-- The f-string label `f"Cycle {n}"`. -/
def cycleLabel (n : Nat) : List Char :=
  "Cycle ".toList ++ Nat.toDigits 10 n

/-! ## The cycle detector (lines 92-138) -/

/-- Lines 92-138, `detect_cycle_info`: run the pattern loop (first
match wins, `break`), then either open a new cycle (week 1 or no
pattern) or just update the current week. -/
def detectCycleInfo (s : ReprocessorState) (content title : List Char) : ReprocessorState :=
  let content_lower := lowerStr content
  match List.findSome? (fun p => searchAux p content_lower) weekPatterns with
  | some (current_week, total_weeks) =>
    let s1 :=
      if current_week = 1 then
        { s with
            cycles := s.cycles ++
              [{ cycle_id := s.cycles.length + 1, total_weeks := total_weeks,
                 workouts := [], start_date := title,
                 name := cycleLabel (s.cycles.length + 1), weeks := none }],
            current_cycle := some s.cycles.length }
      else s
    { s1 with current_week := some current_week }
  | none =>
    { s with
        cycles := s.cycles ++
          [{ cycle_id := s.cycles.length + 1, total_weeks := none,
             workouts := [], start_date := title,
             name := cycleLabel (s.cycles.length + 1), weeks := none }],
        current_cycle := some s.cycles.length,
        current_week := some 1 }

/-! ## The week organizer (lines 140-197) -/

/-- The `day_order` list of line 142. -/
def dayOrder : List (List Char) :=
  ["mon", "tue", "wed", "thu", "fri", "sat", "sun"].map String.toList

/-- Python `list.index` for elements known to be present. -/
def indexOfD : List (List Char) → List Char → Nat
  | [], _ => 0
  | d :: rest, x => if d = x then 0 else indexOfD rest x + 1

/-- The loop state of `organize_workouts_by_weeks` (lines 148-151). -/
structure OrgAcc where
  weeks : List Week
  cur : List Nat
  last : Int
  seen : List (List Char)
  deriving DecidableEq, Repr

/-- One iteration of the loop of lines 153-189. -/
def orgStep (allW : List Workout) (acc : OrgAcc) (i : Nat) : OrgAcc :=
  match allW[i]? with
  | none => acc
  | some w =>
    match w.day with
    | none => acc
    | some d =>
      if d ∈ dayOrder then
        if w.title ≠ [] ∧ w.title ∈ acc.seen then acc
        else
          let seen1 := if w.title ≠ [] then w.title :: acc.seen else acc.seen
          let di := indexOfD dayOrder d
          if acc.cur ≠ [] ∧ (di : Int) ≤ acc.last then
            { weeks := acc.weeks ++ [{ week_number := acc.weeks.length + 1, workouts := acc.cur }],
              cur := [i], last := (di : Int), seen := seen1 }
          else
            { weeks := acc.weeks, cur := acc.cur ++ [i], last := (di : Int), seen := seen1 }
      else acc

/-- Lines 191-195: flush the final partial week. -/
def finalizeWeeks (acc : OrgAcc) : List Week :=
  if acc.cur ≠ [] then
    acc.weeks ++ [{ week_number := acc.weeks.length + 1, workouts := acc.cur }]
  else acc.weeks

/-- The week list computed for one cycle's workout-index sequence. -/
def organizeWeeksList (allW : List Workout) (idxs : List Nat) : List Week :=
  finalizeWeeks (List.foldl (orgStep allW) { weeks := [], cur := [], last := -1, seen := [] } idxs)

/-- Lines 144-197 for a single cycle: cycles with an empty workout list
are skipped wholesale (`continue`), the others get their `weeks` key
overwritten. -/
def organizeCycle (allW : List Workout) (c : Cycle) : Cycle :=
  if c.workouts = [] then c
  else { c with weeks := some (organizeWeeksList allW c.workouts) }

/-- Lines 140-197, `organize_workouts_by_weeks`, over all cycles. -/
def organizeWorkoutsByWeeks (s : ReprocessorState) : ReprocessorState :=
  { s with cycles := s.cycles.map (organizeCycle s.workouts) }

/-! ## The processing loop (lines 199-259) -/

/-- Replace the element at an index of a list, if present. -/
def listModify {α : Type} : Nat → (α → α) → List α → List α
  | _, _, [] => []
  | 0, f, x :: xs => f x :: xs
  | k + 1, f, x :: xs => x :: listModify k f xs

/-- Lines 241-248: append the workout (and its index) to the state,
attaching it to the open cycle when there is one.  `workout_index` is
the length the global list had before appending (line 235; the
detector never changes that list, so it equals the current length).
The inner `none` branch is unreachable: Python holds a direct
reference to the open cycle, modelled by an index that the state
invariant keeps inside the cycle list. -/
def attachWorkout (s1 : ReprocessorState) (workout_index : Nat) (w : Workout) :
    ReprocessorState :=
  match s1.current_cycle with
  | some k =>
    match s1.cycles[k]? with
    | some c =>
      let w1 := { w with cycle_id := some c.cycle_id, week_number := s1.current_week }
      { s1 with
          cycles := listModify k
            (fun cyc => { cyc with workouts := cyc.workouts ++ [workout_index] }) s1.cycles,
          workouts := s1.workouts ++ [w1] }
    | none => { s1 with workouts := s1.workouts ++ [w] }
  | none => { s1 with workouts := s1.workouts ++ [w] }

/-- Lines 232-248: process one validated workout.  The index is the
length of the global list before appending; Monday workouts first pass
through the detector; then the workout is attached and appended. -/
def processWorkout (s : ReprocessorState) (w : Workout) : ReprocessorState :=
  let workout_index := s.workouts.length
  attachWorkout
    (if w.day = some "mon".toList then detectCycleInfo s w.content w.title else s)
    workout_index w

/-- The freshly constructed `DataReprocessor` (lines 28-33). -/
def reprocessInit : ReprocessorState :=
  { workouts := [], cycles := [], current_cycle := none, current_week := none }

/-- Lines 199-255, `reprocess_all_data`.  Page loading, HTML
segmentation and the per-page reversal are upstream of the claims
settled here: the function consumes the stream of validated workouts in
chronological (oldest-first) order, exactly as the inner loop does,
then organizes the weeks. -/
def reprocessAllData (stream : List Workout) : ReprocessorState :=
  organizeWorkoutsByWeeks (List.foldl processWorkout reprocessInit stream)

/-! ## The cycle filter / sampler (lines 284-336) -/

/-- One entry of `data/random_weeks.json` (lines 303-308). -/
structure WeekData where
  cycle_name : List Char
  week_number : Nat
  workouts : List Nat
  total_weeks_in_cycle : Nat
  deriving DecidableEq, Repr

/-- One entry of `data/random_2weeks.json` (lines 315-320). -/
structure TwoWeekData where
  cycle_name : List Char
  week_numbers : List Nat
  weeks : List Week
  total_weeks_in_cycle : Nat
  deriving DecidableEq, Repr

/-- Lines 303-308: the single-week record built from one week. -/
def weekDataOf (cname : List Char) (ws : List Week) (w : Week) : WeekData :=
  { cycle_name := cname, week_number := w.week_number, workouts := w.workouts,
    total_weeks_in_cycle := ws.length }

/-- Lines 311-321: the 2-week sequence built from one week, indexing
the weeks list by `week["week_number"] - 1` (Python integer
arithmetic, so the guard is over `Int`; the accessed position
`week_index + 1` equals `week_number`, a `Nat`, so the access never
wraps around). -/
def twoWeekOf (cname : List Char) (ws : List Week) (w : Week) : Option TwoWeekData :=
  let weekIndex : Int := (w.week_number : Int) - 1
  if weekIndex < (ws.length : Int) - 1 then
    match ws[w.week_number]? with
    | some nw =>
      some { cycle_name := cname, week_numbers := [w.week_number, nw.week_number],
             weeks := [w, nw], total_weeks_in_cycle := ws.length }
    | none => none
  else none

/-- The `all_weeks` pool (built from the unfiltered cycle list). -/
def cycleWeekPool (cs : List Cycle) : List WeekData :=
  (cs.map (fun c => (c.weeks.getD []).map (weekDataOf c.name (c.weeks.getD [])))).flatten

/-- The `all_2week_sequences` pool (built from the unfiltered list). -/
def cycleTwoWeekPool (cs : List Cycle) : List TwoWeekData :=
  (cs.map (fun c => (c.weeks.getD []).filterMap (twoWeekOf c.name (c.weeks.getD [])))).flatten

/-- Lines 284-336, `filter_cycles_by_weeks`: build both pools from the
full cycle list, then keep only cycles with more than 2 weeks
(`len(cycle.get("weeks", [])) > 2`, line 324). -/
def filterCyclesByWeeks (s : ReprocessorState) :
    ReprocessorState × List WeekData × List TwoWeekData :=
  ({ s with cycles := s.cycles.filter (fun c => decide (2 < (c.weeks.getD []).length)) },
   cycleWeekPool s.cycles, cycleTwoWeekPool s.cycles)

/-! ## Specification-level formulations used for refinement claims -/

/-- Week splitting as worded in section 4.4 of the design: close the
current partial week exactly when it is non-empty and the next
processed day index is less than or equal to the last processed one.
Input: the (index, day-index) pairs of the processed workouts. -/
def specWeeks : List Nat → Int → List (Nat × Nat) → List (List Nat)
  | cur, _, [] => if cur = [] then [] else [cur]
  | cur, last, (i, d) :: rest =>
    if cur ≠ [] ∧ (d : Int) ≤ last then cur :: specWeeks [i] (d : Int) rest
    else specWeeks (cur ++ [i]) (d : Int) rest

/-- Number a partition positionally, starting at a given 1-based
week number. -/
def numberWeeksFrom : Nat → List (List Nat) → List Week
  | _, [] => []
  | n, g :: rest => { week_number := n, workouts := g } :: numberWeeksFrom (n + 1) rest

/-- The processed (index, day-index) pairs of a cycle: out-of-range
indices, unknown days and duplicate non-empty titles are dropped, with
the seen-title set threaded through the whole cycle. -/
def processedEntries (allW : List Workout) : List (List Char) → List Nat → List (Nat × Nat)
  | _, [] => []
  | seen, i :: rest =>
    match allW[i]? with
    | none => processedEntries allW seen rest
    | some w =>
      match w.day with
      | none => processedEntries allW seen rest
      | some d =>
        if d ∈ dayOrder then
          if w.title ≠ [] ∧ w.title ∈ seen then processedEntries allW seen rest
          else (i, indexOfD dayOrder d) ::
            processedEntries allW (if w.title ≠ [] then w.title :: seen else seen) rest
        else processedEntries allW seen rest

/-! ## Helper lemmas -/

/-- The skip/keep decision shared by one organizer-loop iteration and
one `processedEntries` step: `none` when the workout is skipped
(out-of-range index, unrecognized day, duplicate non-empty title),
otherwise the day index together with the updated seen-title set. -/
def procDecision (allW : List Workout) (seen : List (List Char)) (i : Nat) :
    Option (Nat × List (List Char)) :=
  match allW[i]? with
  | none => none
  | some w =>
    match w.day with
    | none => none
    | some d =>
      if d ∈ dayOrder then
        if w.title ≠ [] ∧ w.title ∈ seen then none
        else some (indexOfD dayOrder d, if w.title ≠ [] then w.title :: seen else seen)
      else none

/-- One organizer-loop iteration, expressed through the decision. -/
lemma orgStep_eq (allW : List Workout) (acc : OrgAcc) (i : Nat) :
    orgStep allW acc i =
      match procDecision allW acc.seen i with
      | none => acc
      | some (di, seen1) =>
        if acc.cur ≠ [] ∧ (di : Int) ≤ acc.last then
          { weeks := acc.weeks ++ [{ week_number := acc.weeks.length + 1, workouts := acc.cur }],
            cur := [i], last := (di : Int), seen := seen1 }
        else
          { weeks := acc.weeks, cur := acc.cur ++ [i], last := (di : Int), seen := seen1 } := by
  cases hg : allW[i]? with
  | none => simp [orgStep, procDecision, hg]
  | some w =>
    cases hd : w.day with
    | none => simp [orgStep, procDecision, hg, hd]
    | some d =>
      by_cases h1 : d ∈ dayOrder
      · by_cases h2 : w.title ≠ [] ∧ w.title ∈ acc.seen
        · simp [orgStep, procDecision, hg, hd, h1, h2]
        · simp [orgStep, procDecision, hg, hd, h1, h2]
      · simp [orgStep, procDecision, hg, hd, h1]

/-- One `processedEntries` step, expressed through the decision. -/
lemma processedEntries_eq (allW : List Workout) (seen : List (List Char)) (i : Nat)
    (rest : List Nat) :
    processedEntries allW seen (i :: rest) =
      match procDecision allW seen i with
      | none => processedEntries allW seen rest
      | some (di, seen1) => (i, di) :: processedEntries allW seen1 rest := by
  cases hg : allW[i]? with
  | none => simp [processedEntries, procDecision, hg]
  | some w =>
    cases hd : w.day with
    | none => simp [processedEntries, procDecision, hg, hd]
    | some d =>
      by_cases h1 : d ∈ dayOrder
      · by_cases h2 : w.title ≠ [] ∧ w.title ∈ seen
        · simp [processedEntries, procDecision, hg, hd, h1, h2]
        · simp [processedEntries, procDecision, hg, hd, h1, h2]
      · simp [processedEntries, procDecision, hg, hd, h1]

/-- The organizer loop refines the specification-level split: starting
from an arbitrary accumulator, the produced week list is the already
closed weeks followed by the positional numbering of the split of the
processed entries. -/
lemma orgLoop_spec (allW : List Workout) (idxs : List Nat) :
    ∀ acc : OrgAcc,
      finalizeWeeks (List.foldl (orgStep allW) acc idxs) =
        acc.weeks ++ numberWeeksFrom (acc.weeks.length + 1)
          (specWeeks acc.cur acc.last (processedEntries allW acc.seen idxs)) := by
  induction idxs with
  | nil =>
    intro acc
    by_cases hc : acc.cur = [] <;>
      simp [finalizeWeeks, processedEntries, specWeeks, numberWeeksFrom, hc]
  | cons i rest ih =>
    intro acc
    rw [List.foldl_cons, orgStep_eq, processedEntries_eq]
    cases hpd : procDecision allW acc.seen i with
    | none => exact ih acc
    | some pr =>
      obtain ⟨di, seen1⟩ := pr
      by_cases hb : acc.cur ≠ [] ∧ (di : Int) ≤ acc.last
      · simp only [specWeeks]
        rw [if_pos hb, if_pos hb]
        rw [ih { weeks := acc.weeks ++ [{ week_number := acc.weeks.length + 1,
                                          workouts := acc.cur }],
                 cur := [i], last := (di : Int), seen := seen1 }]
        simp [numberWeeksFrom, List.append_assoc]
      · simp only [specWeeks]
        rw [if_neg hb, if_neg hb]
        exact ih { weeks := acc.weeks, cur := acc.cur ++ [i], last := (di : Int), seen := seen1 }

/-- The week list of a cycle is the positional numbering of the
specification-level split of the processed entries. -/
lemma organizeWeeksList_spec (allW : List Workout) (idxs : List Nat) :
    organizeWeeksList allW idxs =
      numberWeeksFrom 1 (specWeeks [] (-1) (processedEntries allW [] idxs)) := by
  simpa [organizeWeeksList] using
    orgLoop_spec allW idxs { weeks := [], cur := [], last := -1, seen := [] }

/-- Positional numbering leaves the underlying partition unchanged. -/
lemma numberWeeksFrom_map_workouts :
    ∀ (n : Nat) (l : List (List Nat)), (numberWeeksFrom n l).map Week.workouts = l
  | _, [] => rfl
  | n, g :: rest => by simp [numberWeeksFrom, numberWeeksFrom_map_workouts (n + 1) rest]

/-- The split is a partition of the processed indices. -/
lemma specWeeks_flatten :
    ∀ (entries : List (Nat × Nat)) (cur : List Nat) (last : Int),
      (specWeeks cur last entries).flatten = cur ++ entries.map Prod.fst := by
  intro entries
  induction entries with
  | nil =>
    intro cur last
    by_cases hc : cur = [] <;> simp [specWeeks, hc]
  | cons e rest ih =>
    intro cur last
    obtain ⟨i, d⟩ := e
    show (specWeeks cur last ((i, d) :: rest)).flatten = _
    by_cases hb : cur ≠ [] ∧ (d : Int) ≤ last
    · simp only [specWeeks]
      rw [if_pos hb]
      simp [ih]
    · simp only [specWeeks]
      rw [if_neg hb]
      simp [ih]

/-- An out-of-range index leaves the organizer accumulator unchanged. -/
lemma orgStep_oob (allW : List Workout) (acc : OrgAcc) (i : Nat)
    (h : allW.length ≤ i) : orgStep allW acc i = acc := by
  have : allW[i]? = none := by simp [List.getElem?_eq_none_iff, h]
  simp [orgStep_eq, procDecision, this]

/-- Out-of-range indices are no-ops for the organizer fold. -/
lemma foldl_orgStep_filter (allW : List Workout) (idxs : List Nat) :
    ∀ acc : OrgAcc,
      List.foldl (orgStep allW) acc (idxs.filter fun i => decide (i < allW.length)) =
        List.foldl (orgStep allW) acc idxs := by
  induction idxs with
  | nil => intro acc; rfl
  | cons i rest ih =>
    intro acc
    by_cases h : i < allW.length
    · simp only [List.filter_cons, h, if_true, List.foldl_cons]
      exact ih (orgStep allW acc i)
    · have hstep := orgStep_oob allW acc i (le_of_not_lt h)
      simp only [List.filter_cons, h, if_false, List.foldl_cons, hstep]
      exact ih acc

/-- Dropping the out-of-range indices of a cycle's list does not change
the organizer's output. -/
lemma organizeWeeksList_filter_inbounds (allW : List Workout) (idxs : List Nat) :
    organizeWeeksList allW (idxs.filter fun i => decide (i < allW.length)) =
      organizeWeeksList allW idxs := by
  unfold organizeWeeksList
  rw [foldl_orgStep_filter]

/-- `organize_workouts_by_weeks` only rewrites the `weeks` key. -/
lemma organizeCycle_workouts (allW : List Workout) (c : Cycle) :
    (organizeCycle allW c).workouts = c.workouts := by
  unfold organizeCycle
  split <;> rfl

/-- Re-running the organizer on an already organized cycle reproduces
the same `weeks` value. -/
lemma organizeCycle_idem (allW : List Workout) (c : Cycle) :
    organizeCycle allW (organizeCycle allW c) = organizeCycle allW c := by
  unfold organizeCycle
  by_cases h : c.workouts = [] <;> simp [h]

/-- Idempotence over the whole state. -/
lemma organizeWorkoutsByWeeks_idem (s : ReprocessorState) :
    organizeWorkoutsByWeeks (organizeWorkoutsByWeeks s) = organizeWorkoutsByWeeks s := by
  unfold organizeWorkoutsByWeeks
  simp only [List.map_map]
  congr 1
  apply List.map_congr_left
  intro c _
  exact organizeCycle_idem s.workouts c

/-- Python `strip` is idempotent. -/
lemma pyStrip_idem (cs : List Char) : pyStrip (pyStrip cs) = pyStrip cs := by
  unfold pyStrip
  have h1 : List.dropWhile isSpaceC (List.rdropWhile isSpaceC (List.dropWhile isSpaceC cs)) =
      List.rdropWhile isSpaceC (List.dropWhile isSpaceC cs) := by
    rw [List.dropWhile_eq_self_iff]
    intro hl
    have hpre : (List.dropWhile isSpaceC cs).rdropWhile isSpaceC <+: List.dropWhile isSpaceC cs :=
      List.rdropWhile_prefix _ _
    have hlu : 0 < (List.dropWhile isSpaceC cs).length :=
      lt_of_lt_of_le hl hpre.length_le
    have h0 := List.dropWhile_get_zero_not isSpaceC cs hlu
    have hgete := hpre.getElem hl
    simpa [List.get_eq_getElem, hgete] using h0
  rw [h1, List.rdropWhile_idempotent]

/-- The pattern loop of `detect_cycle_info` computes `firstWeekMatch`. -/
lemma findSome_weekPatterns (cl : List Char) :
    List.findSome? (fun p => searchAux p cl) weekPatterns = firstWeekMatch cl := by
  unfold firstWeekMatch weekPatterns
  cases h1 : searchAux p1At cl <;> cases h2 : searchAux p2At cl <;>
    cases h3 : searchAux p3At cl <;>
      cases h4 : searchAux p4At cl <;> simp [List.findSome?_cons, h1, h2, h3, h4]

/-! ## Invariants of the processing loop -/

/-- Well-formedness of one cycle relative to the length of the global
workout list: its index sequence is strictly increasing and in range. -/
def cycleOk (n : Nat) (c : Cycle) : Prop :=
  List.Chain' (· < ·) c.workouts ∧ ∀ i ∈ c.workouts, i < n

/-- Well-formedness of the whole state: every cycle is well formed and
the open-cycle index points into the cycle list. -/
def stateInv (s : ReprocessorState) : Prop :=
  (∀ c ∈ s.cycles, cycleOk s.workouts.length c) ∧
    ∀ k, s.current_cycle = some k → k < s.cycles.length

lemma cycleOk_mono {n m : Nat} (h : n ≤ m) {c : Cycle} (hc : cycleOk n c) : cycleOk m c :=
  ⟨hc.1, fun i hi => lt_of_lt_of_le (hc.2 i hi) h⟩

lemma chain_lt_append {n : Nat} :
    ∀ l : List Nat, List.Chain' (· < ·) l → (∀ i ∈ l, i < n) →
      List.Chain' (· < ·) (l ++ [n])
  | [], _, _ => List.chain'_singleton n
  | [x], _, hb => by
    simp only [List.cons_append, List.nil_append]
    exact List.chain'_pair.mpr (hb x (by simp))
  | x :: y :: l, hc, hb => by
    have hc1 := List.chain'_cons.mp hc
    have hrec := chain_lt_append (y :: l) hc1.2 fun i hi => hb i (List.mem_cons_of_mem x hi)
    simp only [List.cons_append] at hrec ⊢
    exact List.chain'_cons.mpr ⟨hc1.1, hrec⟩

lemma listModify_length {α : Type} :
    ∀ (k : Nat) (f : α → α) (l : List α), (listModify k f l).length = l.length
  | k, _, [] => by cases k <;> rfl
  | 0, f, x :: xs => rfl
  | k + 1, f, x :: xs => by simp [listModify, listModify_length k f xs]

lemma listModify_mem {α : Type} :
    ∀ (k : Nat) (f : α → α) (l : List α) (x : α), x ∈ listModify k f l →
      x ∈ l ∨ ∃ y, l[k]? = some y ∧ x = f y
  | k, _, [], x, hx => by cases k <;> simp [listModify] at hx
  | 0, f, a :: xs, x, hx => by
    rcases List.mem_cons.mp hx with h | h
    · exact Or.inr ⟨a, by simp, h⟩
    · exact Or.inl (List.mem_cons_of_mem a h)
  | k + 1, f, a :: xs, x, hx => by
    rcases List.mem_cons.mp hx with h | h
    · exact Or.inl (h ▸ List.mem_cons_self a xs)
    · rcases listModify_mem k f xs x h with h2 | ⟨y, hy, hxy⟩
      · exact Or.inl (List.mem_cons_of_mem a h2)
      · exact Or.inr ⟨y, by simpa using hy, hxy⟩

/-- The two possible outcomes of the detector: only the current week
changes, or a fresh cycle with an empty workout list is appended and
made current. -/
lemma detectCycleInfo_shape (s : ReprocessorState) (content title : List Char) :
    (∃ n, detectCycleInfo s content title = { s with current_week := some n }) ∨
    (∃ tot cw, detectCycleInfo s content title =
      { workouts := s.workouts,
        cycles := s.cycles ++
          [{ cycle_id := s.cycles.length + 1, total_weeks := tot, workouts := [],
             start_date := title, name := cycleLabel (s.cycles.length + 1), weeks := none }],
        current_cycle := some s.cycles.length,
        current_week := some cw }) := by
  simp only [detectCycleInfo]
  cases hm : List.findSome? (fun p => searchAux p (lowerStr content)) weekPatterns with
  | none => exact Or.inr ⟨none, 1, rfl⟩
  | some pr =>
    obtain ⟨n, tot⟩ := pr
    rcases eq_or_ne n 1 with hn | hn
    · subst hn
      exact Or.inr ⟨tot, 1, rfl⟩
    · refine Or.inl ⟨n, ?_⟩
      simp only [if_neg hn]

/-- The detector never touches the global workout list. -/
lemma detectCycleInfo_workouts (s : ReprocessorState) (content title : List Char) :
    (detectCycleInfo s content title).workouts = s.workouts := by
  rcases detectCycleInfo_shape s content title with ⟨n, heq⟩ | ⟨tot, cw, heq⟩ <;> rw [heq]

/-- The detector preserves the state invariant: any cycle it creates
starts with an empty workout list. -/
lemma detectCycleInfo_stateInv {s : ReprocessorState} (content title : List Char)
    (h : stateInv s) : stateInv (detectCycleInfo s content title) := by
  rcases detectCycleInfo_shape s content title with ⟨n, heq⟩ | ⟨tot, cw, heq⟩ <;> rw [heq]
  · exact ⟨h.1, h.2⟩
  · refine ⟨fun c hc => ?_, fun k hk => ?_⟩
    · rcases List.mem_append.mp hc with h1 | h1
      · exact h.1 c h1
      · simp only [List.mem_singleton] at h1
        subst h1
        exact ⟨List.chain'_nil, by simp⟩
    · have hk2 : s.cycles.length = k := by simpa using hk
      subst hk2
      simp

/-- Attaching a fresh index preserves the state invariant. -/
lemma attachWorkout_stateInv {s1 : ReprocessorState} (w : Workout)
    (hinv : stateInv s1) : stateInv (attachWorkout s1 s1.workouts.length w) := by
  unfold attachWorkout
  split
  · rename_i k hcur
    split
    · rename_i c0 hget
      refine ⟨fun c hc => ?_, fun j hj => ?_⟩
      · rcases listModify_mem k _ s1.cycles c hc with h1 | ⟨y, hy, hxy⟩
        · exact cycleOk_mono (by simp) (hinv.1 c h1)
        · have hym : y ∈ s1.cycles := List.getElem?_mem hy
          have hok := hinv.1 y hym
          subst hxy
          refine ⟨chain_lt_append y.workouts hok.1 (fun i hi => hok.2 i hi), ?_⟩
          intro i hi
          rcases List.mem_append.mp hi with h2 | h2
          · exact lt_of_lt_of_le (hok.2 i h2) (by simp)
          · simp only [List.mem_singleton] at h2
            subst h2
            simp
      · have := hinv.2 j hj
        simpa [listModify_length] using this
    · rename_i hget
      exact ⟨fun c hc => cycleOk_mono (by simp) (hinv.1 c hc), fun j hj => hinv.2 j hj⟩
  · rename_i hcur
    exact ⟨fun c hc => cycleOk_mono (by simp) (hinv.1 c hc), fun j hj => hinv.2 j hj⟩

/-- Processing one workout preserves the state invariant. -/
lemma processWorkout_stateInv {s : ReprocessorState} (w : Workout)
    (h : stateInv s) : stateInv (processWorkout s w) := by
  unfold processWorkout
  have hinv : stateInv (if w.day = some "mon".toList
      then detectCycleInfo s w.content w.title else s) := by
    split
    · exact detectCycleInfo_stateInv _ _ h
    · exact h
  have hwlen : (if w.day = some "mon".toList
      then detectCycleInfo s w.content w.title else s).workouts = s.workouts := by
    split
    · exact detectCycleInfo_workouts _ _ _
    · rfl
  have := attachWorkout_stateInv w hinv
  rwa [hwlen] at this

/-- The invariant holds after the whole processing fold. -/
lemma foldl_processWorkout_stateInv (stream : List Workout) :
    ∀ s : ReprocessorState, stateInv s →
      stateInv (List.foldl processWorkout s stream) := by
  induction stream with
  | nil => intro s h; exact h
  | cons w rest ih =>
    intro s h
    exact ih (processWorkout s w) (processWorkout_stateInv w h)

/-- The invariant holds of the initial state. -/
lemma reprocessInit_stateInv : stateInv reprocessInit :=
  ⟨fun c hc => absurd hc (by simp [reprocessInit]), fun k hk => by
    simp [reprocessInit] at hk⟩

/-! ## Duplicate elimination -/

/-- Inversion of a keep decision. -/
lemma procDecision_some {allW : List Workout} {seen : List (List Char)} {i di : Nat}
    {seen1 : List (List Char)} (h : procDecision allW seen i = some (di, seen1)) :
    ∃ w, allW[i]? = some w ∧ (w.title = [] ∨ w.title ∉ seen) ∧
      ((w.title = [] ∧ seen1 = seen) ∨ (w.title ≠ [] ∧ seen1 = w.title :: seen)) := by
  cases hg : allW[i]? with
  | none => simp [procDecision, hg] at h
  | some w =>
    cases hd : w.day with
    | none => simp [procDecision, hg, hd] at h
    | some d =>
      by_cases h1 : d ∈ dayOrder
      · by_cases h2 : w.title ≠ [] ∧ w.title ∈ seen
        · simp [procDecision, hg, hd, h1, h2] at h
        · by_cases ht : w.title = []
          · refine ⟨w, rfl, Or.inl ht, Or.inl ⟨ht, ?_⟩⟩
            simp [procDecision, hg, hd, h1, h2, ht] at h
            exact h.2.symm
          · have hnin : w.title ∉ seen := fun hin => h2 ⟨ht, hin⟩
            refine ⟨w, rfl, Or.inr hnin, Or.inr ⟨ht, ?_⟩⟩
            simp [procDecision, hg, hd, h1, ht, hnin] at h
            exact h.2.symm
      · simp [procDecision, hg, hd, h1] at h

/-- Every processed entry refers to an existing workout. -/
lemma processedEntries_isSome (allW : List Workout) :
    ∀ (idxs : List Nat) (seen : List (List Char)) (e : Nat × Nat),
      e ∈ processedEntries allW seen idxs → ∃ w, allW[e.1]? = some w := by
  intro idxs
  induction idxs with
  | nil => intro seen e he; simp [processedEntries] at he
  | cons i rest ih =>
    intro seen e he
    rw [processedEntries_eq] at he
    cases hpd : procDecision allW seen i with
    | none =>
      rw [hpd] at he
      exact ih seen e he
    | some pr =>
      obtain ⟨di, seen1⟩ := pr
      rw [hpd] at he
      rcases List.mem_cons.mp he with h1 | h1
      · subst h1
        obtain ⟨w, hw, -, -⟩ := procDecision_some hpd
        exact ⟨w, hw⟩
      · exact ih seen1 e h1

/-- When every referenced workout has a non-empty title, the titles of
processed entries avoid the incoming seen set. -/
lemma processedEntries_fresh (allW : List Workout) :
    ∀ (idxs : List Nat) (seen : List (List Char)),
      (∀ i ∈ idxs, ∀ w, allW[i]? = some w → w.title ≠ []) →
      ∀ e ∈ processedEntries allW seen idxs, ∀ w, allW[e.1]? = some w → w.title ∉ seen := by
  intro idxs
  induction idxs with
  | nil => intro seen hne e he; simp [processedEntries] at he
  | cons i rest ih =>
    intro seen hne e he
    rw [processedEntries_eq] at he
    cases hpd : procDecision allW seen i with
    | none =>
      rw [hpd] at he
      exact ih seen (fun j hj => hne j (List.mem_cons_of_mem i hj)) e he
    | some pr =>
      obtain ⟨di, seen1⟩ := pr
      rw [hpd] at he
      obtain ⟨w0, hw0, hfresh, hseen1⟩ := procDecision_some hpd
      have hw0ne : w0.title ≠ [] := hne i (List.mem_cons_self i rest) w0 hw0
      have hnin : w0.title ∉ seen := by
        rcases hfresh with h | h
        · exact absurd h hw0ne
        · exact h
      rcases List.mem_cons.mp he with h1 | h1
      · subst h1
        intro w hw
        rw [hw0] at hw
        injection hw with hw
        subst hw
        exact hnin
      · intro w hw
        have hs1 := ih seen1 (fun j hj => hne j (List.mem_cons_of_mem i hj)) e h1 w hw
        rcases hseen1 with ⟨ht, hs⟩ | ⟨ht, hs⟩
        · exact hs ▸ hs1
        · subst hs
          exact fun hin => hs1 (List.mem_cons_of_mem _ hin)

/-- When every referenced workout has a non-empty title, the processed
entries have pairwise distinct indices and pairwise distinct titles. -/
lemma processedEntries_pairwise (allW : List Workout) :
    ∀ (idxs : List Nat) (seen : List (List Char)),
      (∀ i ∈ idxs, ∀ w, allW[i]? = some w → w.title ≠ []) →
      List.Pairwise
        (fun a b : Nat × Nat => a.1 ≠ b.1 ∧
          ∀ wa wb, allW[a.1]? = some wa → allW[b.1]? = some wb → wa.title ≠ wb.title)
        (processedEntries allW seen idxs) := by
  intro idxs
  induction idxs with
  | nil => intro seen hne; simp [processedEntries]
  | cons i rest ih =>
    intro seen hne
    rw [processedEntries_eq]
    cases hpd : procDecision allW seen i with
    | none => exact ih seen fun j hj => hne j (List.mem_cons_of_mem i hj)
    | some pr =>
      obtain ⟨di, seen1⟩ := pr
      obtain ⟨w0, hw0, -, hseen1⟩ := procDecision_some hpd
      have hw0ne : w0.title ≠ [] := hne i (List.mem_cons_self i rest) w0 hw0
      have hs1 : seen1 = w0.title :: seen := by
        rcases hseen1 with ⟨ht, -⟩ | ⟨-, hs⟩
        · exact absurd ht hw0ne
        · exact hs
      refine List.pairwise_cons.mpr ⟨?_, ih seen1 fun j hj => hne j (List.mem_cons_of_mem i hj)⟩
      intro e he
      have htfresh : ∀ w, allW[e.1]? = some w → w.title ∉ seen1 :=
        processedEntries_fresh allW rest seen1
          (fun j hj => hne j (List.mem_cons_of_mem i hj)) e he
      obtain ⟨we, hwe⟩ := processedEntries_isSome allW rest seen1 e he
      have htne : we.title ≠ w0.title := by
        have := htfresh we hwe
        rw [hs1] at this
        exact fun hEq => this (hEq ▸ List.mem_cons_self _ _)
      constructor
      · intro hEq
        have hEq2 : i = e.1 := hEq
        rw [hEq2, hwe] at hw0
        injection hw0 with hw0
        exact htne (by rw [hw0])
      · intro wa wb hwa hwb
        rw [hw0] at hwa
        injection hwa with hwa
        subst hwa
        rw [hwe] at hwb
        injection hwb with hwb
        subst hwb
        exact fun hEq => htne hEq.symm

/-- The flat index content of the organizer output is exactly the
processed-entry index list. -/
lemma organizeWeeksList_flat (allW : List Workout) (idxs : List Nat) :
    ((organizeWeeksList allW idxs).map Week.workouts).flatten =
      (processedEntries allW [] idxs).map Prod.fst := by
  rw [organizeWeeksList_spec, numberWeeksFrom_map_workouts, specWeeks_flatten]
  simp

/-- The detector transition, written through `firstWeekMatch`. -/
lemma detectCycleInfo_eq (s : ReprocessorState) (content title : List Char) :
    detectCycleInfo s content title =
      match firstWeekMatch (lowerStr content) with
      | some (n, tot) =>
        if n = 1 then
          { workouts := s.workouts,
            cycles := s.cycles ++
              [{ cycle_id := s.cycles.length + 1, total_weeks := tot, workouts := [],
                 start_date := title, name := cycleLabel (s.cycles.length + 1), weeks := none }],
            current_cycle := some s.cycles.length,
            current_week := some 1 }
        else { s with current_week := some n }
      | none =>
        { workouts := s.workouts,
          cycles := s.cycles ++
            [{ cycle_id := s.cycles.length + 1, total_weeks := none, workouts := [],
               start_date := title, name := cycleLabel (s.cycles.length + 1), weeks := none }],
          current_cycle := some s.cycles.length,
          current_week := some 1 } := by
  simp only [detectCycleInfo, findSome_weekPatterns]
  cases hm : firstWeekMatch (lowerStr content) with
  | none => rfl
  | some pr =>
    obtain ⟨n, tot⟩ := pr
    rcases eq_or_ne n 1 with hn | hn
    · subst hn
      rfl
    · simp only [if_neg hn]

/-! ## Claim theorems -/

/-- Claim C1.  For every Monday workout consumed by the cycle
detector: if the first week pattern (in the fixed priority order)
matching the lowercased content yields week number 1, or no pattern
matches at all, a new cycle is allocated (`cycle_id` =
existing-cycle-count + 1, `total_weeks` = the matched total if the
pattern provided one else null, `start_date` = the workout's title,
`name` = the default label), appended to the cycle list and made
current — even when a cycle is already open; when no pattern matches,
`current_week` is additionally forced to 1; when a pattern matches
with week number N ≠ 1, the cycle list and the current cycle are
unchanged and only `current_week` becomes N.  (The last conjunct
records that the detector is invoked exactly for Monday workouts.) -/
theorem claim_c1_cycle_detector (s : ReprocessorState) (content title : List Char) :
    (firstWeekMatch (lowerStr content) = none →
      detectCycleInfo s content title =
        { workouts := s.workouts,
          cycles := s.cycles ++
            [{ cycle_id := s.cycles.length + 1, total_weeks := none, workouts := [],
               start_date := title, name := cycleLabel (s.cycles.length + 1), weeks := none }],
          current_cycle := some s.cycles.length,
          current_week := some 1 }) ∧
    (∀ tot, firstWeekMatch (lowerStr content) = some (1, tot) →
      detectCycleInfo s content title =
        { workouts := s.workouts,
          cycles := s.cycles ++
            [{ cycle_id := s.cycles.length + 1, total_weeks := tot, workouts := [],
               start_date := title, name := cycleLabel (s.cycles.length + 1), weeks := none }],
          current_cycle := some s.cycles.length,
          current_week := some 1 }) ∧
    (∀ n tot, firstWeekMatch (lowerStr content) = some (n, tot) → n ≠ 1 →
      detectCycleInfo s content title = { s with current_week := some n }) ∧
    (∀ w : Workout, w.day = some "mon".toList →
      processWorkout s w =
        attachWorkout (detectCycleInfo s w.content w.title) s.workouts.length w) := by
  refine ⟨fun h => ?_, fun tot h => ?_, fun n tot h hn => ?_, fun w hw => ?_⟩
  · rw [detectCycleInfo_eq, h]
  · rw [detectCycleInfo_eq, h]
    rfl
  · rw [detectCycleInfo_eq, h]
    simp only [if_neg hn]
  · simp [processWorkout, hw]

/-- Concrete five-workout list whose day sequence is mon, wed, fri,
mon, tue, with pairwise distinct titles. -/
def demoFiveDays : List Workout :=
  [{ title := "Mon, Feb 3, 2025".toList, content := "a".toList, source_page := 1,
     day := some "mon".toList, cycle_id := none, week_number := none },
   { title := "Wed, Feb 5, 2025".toList, content := "b".toList, source_page := 1,
     day := some "wed".toList, cycle_id := none, week_number := none },
   { title := "Fri, Feb 7, 2025".toList, content := "c".toList, source_page := 1,
     day := some "fri".toList, cycle_id := none, week_number := none },
   { title := "Mon, Feb 10, 2025".toList, content := "d".toList, source_page := 1,
     day := some "mon".toList, cycle_id := none, week_number := none },
   { title := "Tue, Feb 11, 2025".toList, content := "e".toList, source_page := 1,
     day := some "tue".toList, cycle_id := none, week_number := none }]

/-- Witness for claim C1: the three transition cases at concrete
contents, and the Monday trigger. -/
theorem claim_c1_witness :
    detectCycleInfo reprocessInit "no markers here".toList "T".toList =
      { workouts := reprocessInit.workouts,
        cycles := reprocessInit.cycles ++
          [{ cycle_id := reprocessInit.cycles.length + 1, total_weeks := none, workouts := [],
             start_date := "T".toList, name := cycleLabel (reprocessInit.cycles.length + 1),
             weeks := none }],
        current_cycle := some reprocessInit.cycles.length,
        current_week := some 1 } ∧
    detectCycleInfo reprocessInit "Week 1 of 6 squats".toList "T".toList =
      { workouts := reprocessInit.workouts,
        cycles := reprocessInit.cycles ++
          [{ cycle_id := reprocessInit.cycles.length + 1, total_weeks := some 6, workouts := [],
             start_date := "T".toList, name := cycleLabel (reprocessInit.cycles.length + 1),
             weeks := none }],
        current_cycle := some reprocessInit.cycles.length,
        current_week := some 1 } ∧
    detectCycleInfo reprocessInit "Week 3 deload".toList "T".toList =
      { reprocessInit with current_week := some 3 } :=
  ⟨(claim_c1_cycle_detector reprocessInit "no markers here".toList "T".toList).1 (by decide),
   (claim_c1_cycle_detector reprocessInit "Week 1 of 6 squats".toList "T".toList).2.1
     (some 6) (by decide),
   (claim_c1_cycle_detector reprocessInit "Week 3 deload".toList "T".toList).2.2.1
     3 none (by decide) (by decide)⟩

/-- Claim C2.  The organizer places a week boundary exactly when the
current partial week is non-empty and the next processed day index is
at most the last processed one (first conjunct: full refinement to the
specification-level split); in particular a processed day sequence
mon, wed, fri, mon, tue yields exactly the two weeks [i1, i2, i3] and
[i4, i5] (second conjunct). -/
theorem claim_c2_week_boundaries :
    (∀ (allW : List Workout) (idxs : List Nat),
      organizeWeeksList allW idxs =
        numberWeeksFrom 1 (specWeeks [] (-1) (processedEntries allW [] idxs))) ∧
    (∀ (allW : List Workout) (idxs : List Nat) (i1 i2 i3 i4 i5 : Nat),
      processedEntries allW [] idxs = [(i1, 0), (i2, 2), (i3, 4), (i4, 0), (i5, 1)] →
      organizeWeeksList allW idxs =
        [{ week_number := 1, workouts := [i1, i2, i3] },
         { week_number := 2, workouts := [i4, i5] }]) := by
  refine ⟨organizeWeeksList_spec, fun allW idxs i1 i2 i3 i4 i5 h => ?_⟩
  rw [organizeWeeksList_spec, h]
  rfl

/-- Witness for claim C2 at the concrete five-day list. -/
theorem claim_c2_witness :
    organizeWeeksList demoFiveDays [0, 1, 2, 3, 4] =
      [{ week_number := 1, workouts := [0, 1, 2] },
       { week_number := 2, workouts := [3, 4] }] :=
  claim_c2_week_boundaries.2 demoFiveDays [0, 1, 2, 3, 4] 0 1 2 3 4 (by decide)

/-- Claim C3.  The week organizer is pure and idempotent: re-running
it on an unchanged cycle (and on the unchanged whole state) reproduces
exactly the same week partition. -/
theorem claim_c3_idempotent (s : ReprocessorState) (allW : List Workout) (c : Cycle) :
    organizeCycle allW (organizeCycle allW c) = organizeCycle allW c ∧
    organizeWorkoutsByWeeks (organizeWorkoutsByWeeks s) = organizeWorkoutsByWeeks s :=
  ⟨organizeCycle_idem allW c, organizeWorkoutsByWeeks_idem s⟩

/-- A Monday workout with an empty title: the duplicate-elimination
guard `if date and date in seen_dates_in_cycle` is skipped for falsy
titles, so such a workout is never registered as seen. -/
def emptyTitleMonday : Workout :=
  { title := [], content := "x".toList, source_page := 1, day := some "mon".toList,
    cycle_id := none, week_number := none }

/-- Counterexample to claim C4 as stated.  The cycle [0, 0] over a
single empty-titled Monday workout references the same workout (hence
the same title) twice; the claim demands that the second occurrence be
skipped entirely, appear in no week and trigger no boundary, and that
no index occur twice across the produced weeks — but the organizer
places index 0 in two separate weeks, because the source only records
truthy (non-empty) titles in its seen set. -/
theorem claim_c4_counterexample :
    organizeWeeksList [emptyTitleMonday] [0, 0] =
      [{ week_number := 1, workouts := [0] }, { week_number := 2, workouts := [0] }] ∧
    ¬ (((organizeWeeksList [emptyTitleMonday] [0, 0]).map Week.workouts).flatten).Nodup :=
  ⟨by decide, by decide⟩

/-- Claim C4, amended: provided every workout referenced by the cycle
has a non-empty title, a workout whose title equals the title of a
workout already placed earlier in the cycle is skipped entirely — the
processed entries carry pairwise distinct indices and pairwise
distinct titles (with the seen set scoped to the whole cycle), and
consequently no workout index occurs twice across the produced
weeks. -/
theorem claim_c4_amended (allW : List Workout) (idxs : List Nat)
    (hne : ∀ i ∈ idxs, ∀ w, allW[i]? = some w → w.title ≠ []) :
    List.Pairwise
      (fun a b : Nat × Nat => a.1 ≠ b.1 ∧
        ∀ wa wb, allW[a.1]? = some wa → allW[b.1]? = some wb → wa.title ≠ wb.title)
      (processedEntries allW [] idxs) ∧
    (((organizeWeeksList allW idxs).map Week.workouts).flatten).Nodup := by
  refine ⟨processedEntries_pairwise allW idxs [] hne, ?_⟩
  rw [organizeWeeksList_flat]
  have hp := processedEntries_pairwise allW idxs [] hne
  exact List.pairwise_map.mpr (hp.imp fun h => h.1)

/-- Witness for the amended claim C4 at the concrete five-day list. -/
theorem claim_c4_witness :
    (((organizeWeeksList demoFiveDays [0, 1, 2, 3, 4]).map Week.workouts).flatten).Nodup :=
  (claim_c4_amended demoFiveDays [0, 1, 2, 3, 4] (by decide)).2

/-- Counterexample to claim C6 as stated.  The content `"3.2)"`
matches neither `week N of M` nor `week N/M`, and contains the integer
3 immediately followed by a literal dot, a digit and a close-paren —
so the claim demands `current_week = 3`.  But the third source
pattern is `(\d+)\.1\)`, which requires the literal digit 1 between
the dot and the close-paren; no pattern matches, and the detector
instead opens a new cycle with `current_week = 1`. -/
theorem claim_c6_counterexample :
    "3.2)".toList = ['3', '.', '2', ')'] ∧
    isDigitC '2' = true ∧
    searchAux p1At (lowerStr "3.2)".toList) = none ∧
    searchAux p2At (lowerStr "3.2)".toList) = none ∧
    (detectCycleInfo reprocessInit "3.2)".toList "Mon, Feb 3, 2025".toList).current_week
      = some 1 ∧
    (detectCycleInfo reprocessInit "3.2)".toList "Mon, Feb 3, 2025".toList).current_week
      ≠ some 3 :=
  ⟨by decide, by decide, by decide, by decide, by decide, by decide⟩

/-- Claim C6, amended: for every Monday workout whose lowercased
content matches neither `week N of M` nor `week N/M`, if the content
contains an integer N immediately followed by a literal dot, **the
digit 1**, and a close-paren (the `(\d+)\.1\)` program/day numbering
convention, leftmost match), the detector sets `current_week = N` and
records no `total_weeks` from this pattern: the cycle list is either
unchanged (N ≠ 1) or extended by a cycle whose `total_weeks` is
null (N = 1). -/
theorem claim_c6_amended (s : ReprocessorState) (content title : List Char) (n : Nat)
    (h1 : searchAux p1At (lowerStr content) = none)
    (h2 : searchAux p2At (lowerStr content) = none)
    (h3 : searchAux p3At (lowerStr content) = some (n, none)) :
    (detectCycleInfo s content title).current_week = some n ∧
    ((detectCycleInfo s content title).cycles = s.cycles ∨
      (detectCycleInfo s content title).cycles = s.cycles ++
        [{ cycle_id := s.cycles.length + 1, total_weeks := none, workouts := [],
           start_date := title, name := cycleLabel (s.cycles.length + 1), weeks := none }]) := by
  have hfm : firstWeekMatch (lowerStr content) = some (n, none) := by
    unfold firstWeekMatch
    rw [h1, h2, h3]
  rw [detectCycleInfo_eq, hfm]
  rcases eq_or_ne n 1 with hn | hn
  · subst hn
    exact ⟨rfl, Or.inr rfl⟩
  · simp [if_neg hn]

/-- Witness for the amended claim C6: content `"3.1)"` sets the
current week to 3 and leaves the cycle list unchanged. -/
theorem claim_c6_witness :
    (detectCycleInfo reprocessInit "3.1) press".toList "T".toList).current_week = some 3 ∧
    ((detectCycleInfo reprocessInit "3.1) press".toList "T".toList).cycles =
        reprocessInit.cycles ∨
      (detectCycleInfo reprocessInit "3.1) press".toList "T".toList).cycles =
        reprocessInit.cycles ++
          [{ cycle_id := reprocessInit.cycles.length + 1, total_weeks := none, workouts := [],
             start_date := "T".toList, name := cycleLabel (reprocessInit.cycles.length + 1),
             weeks := none }]) :=
  claim_c6_amended reprocessInit "3.1) press".toList "T".toList 3
    (by decide) (by decide) (by decide)

/-- Candidate parsing never aborts a page: each candidate contributes
its parsed workout or nothing (the loop of lines 219-226). -/
def parseCandidates (cands : List (List Char × List Char)) (page : Nat) : List Workout :=
  cands.filterMap (fun c => parseWorkoutFromHtml c.1 c.2 page)

/-- Rejection characterization of the validator on a stripped title. -/
lemma isValid_eq_false_iff (t : List Char) (hidem : pyStrip t = t) :
    (isValidWorkoutTitle t = false) ↔
      (t = [] ∨ t = "No title".toList ∨ t = "Warm-up".toList ∨
        containsDateAnchor (lowerStr t) = false) := by
  unfold isValidWorkoutTitle
  rw [hidem]
  have hmem : t ∈ placeholderTitles ↔
      (t = "No title".toList ∨ t = "Warm-up".toList ∨ t = []) := by
    simp [placeholderTitles]
  by_cases hv : t = [] ∨ t ∈ placeholderTitles
  · rw [if_pos hv]
    constructor
    · intro _
      rcases hv with h | h
      · exact Or.inl h
      · rcases hmem.mp h with h | h | h
        · exact Or.inr (Or.inl h)
        · exact Or.inr (Or.inr (Or.inl h))
        · exact Or.inl h
    · intro _
      rfl
  · rw [if_neg hv]
    push_neg at hv
    constructor
    · intro hfalse
      exact Or.inr (Or.inr (Or.inr hfalse))
    · intro hr
      rcases hr with h | h | h | h
      · exact absurd h hv.1
      · exact absurd (hmem.mpr (Or.inl h)) hv.2
      · exact absurd (hmem.mpr (Or.inr (Or.inl h))) hv.2
      · exact h

/-- Parsing fails exactly when the validator rejects the stripped
title. -/
lemma parse_none_iff (headingText contentText : List Char) (page : Nat) :
    parseWorkoutFromHtml headingText contentText page = none ↔
      isValidWorkoutTitle (pyStrip headingText) = false := by
  unfold parseWorkoutFromHtml
  by_cases hv : isValidWorkoutTitle (pyStrip headingText) <;> simp [hv]

/-- Claim C7.  The validator rejects a candidate if and only if its
extracted (stripped) title is empty, is the literal placeholder
`"No title"` or `"Warm-up"`, or does not contain the date-anchor
shape (weekday abbreviation, optional comma, a word, a day number, a
comma, a 4-digit year, matched case-insensitively); a rejected
candidate produces no `Workout` (the parse returns `none` rather than
raising), and it never aborts the processing of the remaining
candidates of its page. -/
theorem claim_c7_validator (headingText contentText : List Char) (page : Nat) :
    (parseWorkoutFromHtml headingText contentText page = none ↔
      (pyStrip headingText = [] ∨
       pyStrip headingText = "No title".toList ∨
       pyStrip headingText = "Warm-up".toList ∨
       containsDateAnchor (lowerStr (pyStrip headingText)) = false)) ∧
    (parseWorkoutFromHtml headingText contentText page = none →
      ∀ rest, parseCandidates ((headingText, contentText) :: rest) page =
        parseCandidates rest page) := by
  constructor
  · rw [parse_none_iff]
    exact isValid_eq_false_iff (pyStrip headingText) (pyStrip_idem headingText)
  · intro hnone rest
    simp [parseCandidates, hnone]

/-- Witness for claim C7: a whitespace-padded placeholder title is
rejected, produces no workout, and drops out of the candidate batch
without affecting the rest. -/
theorem claim_c7_witness :
    parseWorkoutFromHtml " No title ".toList "body text".toList 3 = none ∧
    parseCandidates [(" No title ".toList, "body text".toList)] 3 = [] := by
  have h := claim_c7_validator " No title ".toList "body text".toList 3
  have hnone : parseWorkoutFromHtml " No title ".toList "body text".toList 3 = none :=
    h.1.mpr (Or.inr (Or.inl (by decide)))
  exact ⟨hnone, by simpa [parseCandidates] using h.2 hnone []⟩

/-- Claim C8.  For every cycle produced by a reprocessing run, the
cycle's workout-index sequence is strictly increasing (each index is
appended at the length the global list had at that moment, and the
global list is append-only). -/
theorem claim_c8_strictly_increasing (stream : List Workout) :
    ∀ c ∈ (reprocessAllData stream).cycles, List.Chain' (· < ·) c.workouts := by
  intro c hc
  have hmem : c ∈ (List.foldl processWorkout reprocessInit stream).cycles.map
      (organizeCycle (List.foldl processWorkout reprocessInit stream).workouts) := hc
  obtain ⟨c0, hc0, hco⟩ := List.mem_map.mp hmem
  have hinv := foldl_processWorkout_stateInv stream reprocessInit reprocessInit_stateInv
  rw [← hco, organizeCycle_workouts]
  exact (hinv.1 c0 hc0).1

/-- A Monday workout whose content matches no week pattern. -/
def sampleMonday : Workout :=
  { title := "Mon, Feb 3, 2025".toList, content := "strength work".toList, source_page := 1,
    day := some "mon".toList, cycle_id := none, week_number := none }

/-- The single cycle the run over `[sampleMonday]` produces. -/
def sampleCycleOne : Cycle :=
  { cycle_id := 1, total_weeks := none, workouts := [0],
    start_date := "Mon, Feb 3, 2025".toList, name := "Cycle 1".toList,
    weeks := some [{ week_number := 1, workouts := [0] }] }

/-- Witness for claim C8 on the one-workout run. -/
theorem claim_c8_witness :
    ∃ c ∈ (reprocessAllData [sampleMonday]).cycles, List.Chain' (· < ·) c.workouts :=
  ⟨sampleCycleOne, by decide,
   claim_c8_strictly_increasing [sampleMonday] sampleCycleOne (by decide)⟩

/-- Claim C9.  The organizer is total over arbitrary index sequences:
out-of-range indices are skipped, so dropping them leaves the output
unchanged (first conjunct); and every cycle the core pipeline produces
references only in-range indices, so the skip branch is unreachable
for core-produced cycles (second conjunct). -/
theorem claim_c9_out_of_range (allW : List Workout) (idxs : List Nat)
    (stream : List Workout) :
    (organizeWeeksList allW (idxs.filter fun i => decide (i < allW.length)) =
      organizeWeeksList allW idxs) ∧
    (∀ c ∈ (reprocessAllData stream).cycles, ∀ i ∈ c.workouts,
      i < (reprocessAllData stream).workouts.length) := by
  refine ⟨organizeWeeksList_filter_inbounds allW idxs, ?_⟩
  intro c hc i hi
  have hmem : c ∈ (List.foldl processWorkout reprocessInit stream).cycles.map
      (organizeCycle (List.foldl processWorkout reprocessInit stream).workouts) := hc
  obtain ⟨c0, hc0, hco⟩ := List.mem_map.mp hmem
  have hinv := foldl_processWorkout_stateInv stream reprocessInit reprocessInit_stateInv
  rw [← hco, organizeCycle_workouts] at hi
  exact (hinv.1 c0 hc0).2 i hi

/-- Witness for claim C9: an out-of-range index 5 is dropped without
changing the output, and the produced cycle's only index is in
range. -/
theorem claim_c9_witness :
    (organizeWeeksList [sampleMonday] ([0, 5].filter fun i => decide (i < 1)) =
      organizeWeeksList [sampleMonday] [0, 5]) ∧
    (0 : Nat) < (reprocessAllData [sampleMonday]).workouts.length := by
  have h := claim_c9_out_of_range [sampleMonday] [0, 5] [sampleMonday]
  exact ⟨by simpa using h.1, h.2 sampleCycleOne (by decide) 0 (by decide)⟩

/-- Positional numbering preserves length. -/
lemma numberWeeksFrom_length :
    ∀ (n : Nat) (l : List (List Nat)), (numberWeeksFrom n l).length = l.length
  | _, [] => rfl
  | n, g :: rest => by simp [numberWeeksFrom, numberWeeksFrom_length (n + 1) rest]

/-- Positional numbering produces the week numbers 1, …, length. -/
lemma numberWeeksFrom_week_numbers :
    ∀ (n : Nat) (l : List (List Nat)),
      (numberWeeksFrom n l).map Week.week_number = List.range' n l.length
  | _, [] => rfl
  | n, g :: rest => by
    simp [numberWeeksFrom, numberWeeksFrom_week_numbers (n + 1) rest, List.range']

/-- Cycles coming out of the processing fold have no `weeks` key yet. -/
lemma foldl_processWorkout_weeks_none (stream : List Workout) :
    ∀ s : ReprocessorState, (∀ c ∈ s.cycles, c.weeks = none) →
      ∀ c ∈ (List.foldl processWorkout s stream).cycles, c.weeks = none := by
  induction stream with
  | nil => intro s h; exact h
  | cons w rest ih =>
    intro s h
    refine ih (processWorkout s w) ?_
    intro c hc
    unfold processWorkout at hc
    have hdet : ∀ c ∈ (if w.day = some "mon".toList
        then detectCycleInfo s w.content w.title else s).cycles, c.weeks = none := by
      split
      · rename_i hmon
        intro c1 hc1
        rcases detectCycleInfo_shape s w.content w.title with ⟨n, heq⟩ | ⟨tot, cw, heq⟩ <;>
          rw [heq] at hc1
        · exact h c1 hc1
        · rcases List.mem_append.mp hc1 with h1 | h1
          · exact h c1 h1
          · simp only [List.mem_singleton] at h1
            subst h1
            rfl
      · exact h
    revert hc
    generalize (if w.day = some "mon".toList
      then detectCycleInfo s w.content w.title else s) = s1 at hdet
    intro hc
    unfold attachWorkout at hc
    rcases hcur : s1.current_cycle with _ | k
    · simp only [hcur] at hc
      exact hdet c hc
    · simp only [hcur] at hc
      rcases hget : s1.cycles[k]? with _ | c0
      · simp only [hget] at hc
        exact hdet c hc
      · simp only [hget] at hc
        rcases listModify_mem k _ s1.cycles c hc with h1 | ⟨y, hy, hxy⟩
        · exact hdet c h1
        · subst hxy
          exact hdet y (List.getElem?_mem hy)

/-- Every cycle of a reprocessing run has positional week numbers —
this discharges the hypothesis of the claim C5 theorem for
pipeline-produced states. -/
lemma reprocessAllData_weeks_positional (stream : List Workout) :
    ∀ c ∈ (reprocessAllData stream).cycles,
      (c.weeks.getD []).map Week.week_number =
        List.range' 1 (c.weeks.getD []).length := by
  intro c hc
  have hmem : c ∈ (List.foldl processWorkout reprocessInit stream).cycles.map
      (organizeCycle (List.foldl processWorkout reprocessInit stream).workouts) := hc
  obtain ⟨c0, hc0, hco⟩ := List.mem_map.mp hmem
  have h0 : c0.weeks = none :=
    foldl_processWorkout_weeks_none stream reprocessInit (by simp [reprocessInit]) c0 hc0
  subst hco
  unfold organizeCycle
  by_cases hw : c0.workouts = []
  · rw [if_pos hw, h0]
    rfl
  · rw [if_neg hw]
    show (organizeWeeksList _ c0.workouts).map Week.week_number =
      List.range' 1 (organizeWeeksList _ c0.workouts).length
    rw [organizeWeeksList_spec, numberWeeksFrom_week_numbers, numberWeeksFrom_length]

/-- Claim C5.  The cycle filter retains exactly the cycles with
strictly more than 2 weeks, while both sampling pools are built from
the unfiltered cycle list: every week of every cycle appears in the
single-week pool, and (for organizer-produced cycles, whose week
numbers are positional) every adjacent pair (week j, week j+1) of
every cycle appears in the pair pool. -/
theorem claim_c5_filter (s : ReprocessorState)
    (hpos : ∀ c ∈ s.cycles,
      (c.weeks.getD []).map Week.week_number =
        List.range' 1 (c.weeks.getD []).length) :
    (∀ c : Cycle, c ∈ (filterCyclesByWeeks s).1.cycles ↔
      (c ∈ s.cycles ∧ 2 < (c.weeks.getD []).length)) ∧
    (∀ c ∈ s.cycles, ∀ w ∈ c.weeks.getD [],
      weekDataOf c.name (c.weeks.getD []) w ∈ (filterCyclesByWeeks s).2.1) ∧
    (∀ c ∈ s.cycles, ∀ (j : Nat) (w1 w2 : Week),
      (c.weeks.getD [])[j]? = some w1 → (c.weeks.getD [])[j + 1]? = some w2 →
      { cycle_name := c.name, week_numbers := [w1.week_number, w2.week_number],
        weeks := [w1, w2], total_weeks_in_cycle := (c.weeks.getD []).length }
        ∈ (filterCyclesByWeeks s).2.2) := by
  refine ⟨?_, ?_, ?_⟩
  · intro c
    simp [filterCyclesByWeeks, List.mem_filter]
  · intro c hc w hw
    show _ ∈ cycleWeekPool s.cycles
    unfold cycleWeekPool
    rw [List.mem_flatten]
    exact ⟨(c.weeks.getD []).map (weekDataOf c.name (c.weeks.getD [])),
           List.mem_map_of_mem _ hc, List.mem_map_of_mem _ hw⟩
  · intro c hc j w1 w2 h1 h2
    have hlen2 : j + 1 < (c.weeks.getD []).length := (List.getElem?_eq_some.mp h2).1
    have hjlen : j < (c.weeks.getD []).length := (List.getElem?_eq_some.mp h1).1
    have hw1n : w1.week_number = j + 1 := by
      have hm : ((c.weeks.getD []).map Week.week_number)[j]? = some w1.week_number := by
        rw [List.getElem?_map, h1]
        rfl
      rw [hpos c hc] at hm
      have hlen' : j < (List.range' 1 (c.weeks.getD []).length).length := by simpa using hjlen
      rw [List.getElem?_eq_getElem hlen'] at hm
      simp only [List.getElem_range'] at hm
      injection hm with hm
      omega
    have htwo : twoWeekOf c.name (c.weeks.getD []) w1 =
        some { cycle_name := c.name, week_numbers := [w1.week_number, w2.week_number],
               weeks := [w1, w2], total_weeks_in_cycle := (c.weeks.getD []).length } := by
      simp only [twoWeekOf]
      have hcond : ((w1.week_number : Int) - 1) < ((c.weeks.getD []).length : Int) - 1 := by
        rw [hw1n]
        push_cast
        omega
      rw [if_pos hcond]
      have hacc : (c.weeks.getD [])[w1.week_number]? = some w2 := by
        rw [hw1n]
        exact h2
      rw [hacc]
    show _ ∈ cycleTwoWeekPool s.cycles
    unfold cycleTwoWeekPool
    rw [List.mem_flatten]
    refine ⟨(c.weeks.getD []).filterMap (twoWeekOf c.name (c.weeks.getD [])),
            List.mem_map_of_mem _ hc, ?_⟩
    rw [List.mem_filterMap]
    exact ⟨w1, List.getElem?_mem h1, htwo⟩

/-- A one-week cycle for the filter example. -/
def poolCycle1 : Cycle :=
  { cycle_id := 1, total_weeks := none, workouts := [0], start_date := [],
    name := "Cycle 1".toList, weeks := some [{ week_number := 1, workouts := [0] }] }

/-- A two-week cycle for the filter example. -/
def poolCycle2 : Cycle :=
  { cycle_id := 2, total_weeks := none, workouts := [1, 2], start_date := [],
    name := "Cycle 2".toList,
    weeks := some [{ week_number := 1, workouts := [1] },
                   { week_number := 2, workouts := [2] }] }

/-- A three-week cycle for the filter example. -/
def poolCycle3 : Cycle :=
  { cycle_id := 3, total_weeks := none, workouts := [3, 4, 5], start_date := [],
    name := "Cycle 3".toList,
    weeks := some [{ week_number := 1, workouts := [3] },
                   { week_number := 2, workouts := [4] },
                   { week_number := 3, workouts := [5] }] }

/-- A four-week cycle for the filter example. -/
def poolCycle4 : Cycle :=
  { cycle_id := 4, total_weeks := none, workouts := [6, 7, 8, 9], start_date := [],
    name := "Cycle 4".toList,
    weeks := some [{ week_number := 1, workouts := [6] },
                   { week_number := 2, workouts := [7] },
                   { week_number := 3, workouts := [8] },
                   { week_number := 4, workouts := [9] }] }

/-- A state whose cycles have week counts 1, 2, 3, 4. -/
def poolState : ReprocessorState :=
  { workouts := [], cycles := [poolCycle1, poolCycle2, poolCycle3, poolCycle4],
    current_cycle := none, current_week := none }

/-- Witness for claim C5 on week counts [1, 2, 3, 4]: only the 3- and
4-week cycles are retained, yet a week of the 1-week cycle is in the
single-week pool and a pair of the 4-week cycle is in the pair
pool. -/
theorem claim_c5_witness :
    (filterCyclesByWeeks poolState).1.cycles = [poolCycle3, poolCycle4] ∧
    weekDataOf poolCycle1.name (poolCycle1.weeks.getD [])
        { week_number := 1, workouts := [0] } ∈ (filterCyclesByWeeks poolState).2.1 ∧
    ({ cycle_name := poolCycle4.name, week_numbers := [1, 2],
       weeks := [{ week_number := 1, workouts := [6] }, { week_number := 2, workouts := [7] }],
       total_weeks_in_cycle := 4 } : TwoWeekData) ∈ (filterCyclesByWeeks poolState).2.2 := by
  have h := claim_c5_filter poolState (by decide)
  refine ⟨by decide, h.2.1 poolCycle1 (by decide) _ (by decide), ?_⟩
  exact h.2.2 poolCycle4 (by decide) 0 { week_number := 1, workouts := [6] }
    { week_number := 2, workouts := [7] } (by decide) (by decide)

/-- Claim C10.  There are candidates the validator accepts (the
date-anchor shape occurs after leading text) whose derived day is
`none`, because validation searches the pattern anywhere in the title
while day derivation requires the lowercased title to start with a
weekday code; such a workout receives a `cycle_id` and appears in a
cycle's workout sequence, yet the week organizer skips it, so it
belongs to no produced week. -/
theorem claim_c10_accepted_without_day :
    ∃ w : Workout,
      parseWorkoutFromHtml "Re: Mon, Feb 10, 2025".toList "snatch work".toList 2 = some w ∧
      w.day = none ∧
      ∃ c ∈ (reprocessAllData [sampleMonday, w]).cycles,
        1 ∈ c.workouts ∧
        (∀ x, (reprocessAllData [sampleMonday, w]).workouts[1]? = some x →
          x.cycle_id = some c.cycle_id) ∧
        ∀ wk ∈ c.weeks.getD [], 1 ∉ wk.workouts := by
  refine ⟨{ title := "Re: Mon, Feb 10, 2025".toList, content := "snatch work".toList,
            source_page := 2, day := none, cycle_id := none, week_number := none },
          by decide, rfl, ?_⟩
  exact ⟨{ cycle_id := 1, total_weeks := none, workouts := [0, 1],
           start_date := "Mon, Feb 3, 2025".toList, name := "Cycle 1".toList,
           weeks := some [{ week_number := 1, workouts := [0] }] },
         by decide, by decide, by decide, by decide⟩

end Crossfit
